import Mathlib

/-!
Verification of the configuration bootstrap-and-migration module
(`cfg/config_files.go` of the wtf repository).

Go strings are embedded as `List Char`; the filesystem is embedded as a
tree of nodes (regular files with byte content, directories with named
children).  Fallible operations return `Except`/`Option`.  Paths handed
to filesystem operations are interpreted as component lists relative to
a single root; empty components and `.` components are ignored (as the
OS does), while `..` is treated as an ordinary name — the module only
ever passes cleaned paths, where no interior `..` remains.
-/

namespace Wtf

/-- Go strings, embedded as lists of characters. -/
abbrev Str := List Char

/-- Error taxonomy of the module (spec section 7): `malformedPath` is the
"cannot expand user-specific home dir" error, `homeDirUnavailable` covers
both failures of `home()` (user lookup failed, or empty `HomeDir`), and
`ioError` is any filesystem operation failure. -/
inductive CfgError where
  | malformedPath
  | homeDirUnavailable
  | ioError
deriving DecidableEq, Repr

/-- The operating environment seen by `user.Current()`:
`none` means the lookup itself fails; `some h` means it succeeds and the
`HomeDir` field holds `h` (possibly empty). -/
structure UserEnv where
  current : Option Str

/-- `home()` from config_files.go: returns the executing user's home
directory, failing if `user.Current()` fails or `HomeDir` is empty. -/
def home (env : UserEnv) : Except CfgError Str :=
  match env.current with
  | none => .error .homeDirUnavailable
  | some h => if h = [] then .error .homeDirUnavailable else .ok h

/-! ### Go `path/filepath` primitives (Unix rules), used by the module -/

/-- Split a path on `'/'` (boundaries kept as empty components). -/
def splitSlash : Str → List Str
  | [] => [[]]
  | c :: t =>
    if c = '/' then [] :: splitSlash t
    else
      match splitSlash t with
      | [] => [[c]]
      | h :: r => (c :: h) :: r

/-- Join components with `'/'`. -/
def intercalateSlash : List Str → Str
  | [] => []
  | [p] => p
  | p :: q :: r => p ++ '/' :: intercalateSlash (q :: r)

/-- Does the path begin with a `'/'`? -/
def isRooted : Str → Bool
  | [] => false
  | c :: _ => c = '/'

/-- The component loop of Go `filepath.Clean` (Unix): empty and `.`
components are dropped, `..` pops a previous component, except that at
the root `..` is dropped and in a relative path leading `..`s are kept.
The accumulator holds the output components in reverse. -/
def cleanPartsAcc (rooted : Bool) : List Str → List Str → List Str
  | acc, [] => acc
  | acc, c :: rest =>
    if c = [] ∨ c = ['.'] then cleanPartsAcc rooted acc rest
    else if c = ['.', '.'] then
      match acc with
      | [] => cleanPartsAcc rooted (if rooted then [] else [c]) rest
      | top :: accRest =>
        if top = ['.', '.'] then cleanPartsAcc rooted (c :: acc) rest
        else cleanPartsAcc rooted accRest rest
    else cleanPartsAcc rooted (c :: acc) rest

/-- The cleaned component list of a path. -/
def stackFold (rooted : Bool) (parts : List Str) : List Str :=
  (cleanPartsAcc rooted [] parts).reverse

/-- Go `filepath.Clean` for Unix paths. -/
def clean (path : Str) : Str :=
  if path = [] then ['.']
  else if isRooted path then
    '/' :: intercalateSlash (stackFold (isRooted path) (splitSlash path))
  else if intercalateSlash (stackFold (isRooted path) (splitSlash path)) = [] then ['.']
  else intercalateSlash (stackFold (isRooted path) (splitSlash path))

/-- Go `filepath.Join` for two elements (Unix): empty elements are
ignored and the result is cleaned; all-empty input yields the empty
string. -/
def filepathJoin (a b : Str) : Str :=
  match [a, b].filter (fun e => decide (e ≠ [])) with
  | [] => []
  | elems => clean (intercalateSlash elems)

/-- The component list a path denotes for filesystem traversal: split on
`'/'`, dropping empty and `.` components. -/
def pathComps (s : Str) : List Str :=
  (splitSlash s).filter (fun p => decide (p ≠ [] ∧ p ≠ ['.']))

/-! ### Path resolution (`expandHomeDir`) -/

/-- `expandHomeDir` from config_files.go: the empty path and paths not
beginning with `'~'` are returned unchanged; `'~'` followed by a
character that is neither `'/'` nor `'\\'` is rejected; otherwise the
home directory is resolved and joined (`filepath.Join`) with the
remainder `path[1:]`. -/
def expandHomeDir (env : UserEnv) (path : Str) : Except CfgError Str :=
  match path with
  | [] => .ok []
  | c :: rest =>
    if c ≠ '~' then .ok (c :: rest)
    else
      match rest with
      | [] =>
        match home env with
        | .error e => .error e
        | .ok dir => .ok (filepathJoin dir [])
      | c2 :: _ =>
        if c2 ≠ '/' ∧ c2 ≠ '\\' then .error .malformedPath
        else
          match home env with
          | .error e => .error e
          | .ok dir => .ok (filepathJoin dir rest)

/-- The value a Go caller sees in the first return slot when the error
slot is discarded (`p, _ := expandHomeDir(...)`): the empty string on
failure. -/
def orEmpty (r : Except CfgError Str) : Str :=
  match r with
  | .ok s => s
  | .error _ => []

/-- `XdgConfigDir` constant. -/
def XdgConfigDir : Str := "~/.config/".data

/-- `WtfConfigDirV1` constant (the legacy location). -/
def WtfConfigDirV1 : Str := "~/.wtf/".data

/-- `WtfConfigDirV2` constant (the current location). -/
def WtfConfigDirV2 : Str := "~/.config/wtf/".data

/-- `WtfConfigDir` from config_files.go: the resolved current
configuration directory. -/
def WtfConfigDir (env : UserEnv) : Except CfgError Str :=
  match expandHomeDir env WtfConfigDirV2 with
  | .error e => .error e
  | .ok configDir => .ok configDir

example : expandHomeDir ⟨some "/home/u".data⟩ WtfConfigDirV2 =
    .ok "/home/u/.config/wtf".data := by rfl

example : expandHomeDir ⟨some "/home/u".data⟩ "~/.config/".data =
    .ok "/home/u/.config".data := by rfl

example : expandHomeDir ⟨some "/h".data⟩ "~".data = .ok "/h".data := by rfl

example : expandHomeDir ⟨some "/h".data⟩ "~x".data = .error .malformedPath := by rfl

example : expandHomeDir ⟨none⟩ "~/a".data = .error .homeDirUnavailable := by rfl

example : clean "/a/../b//c/./".data = "/b/c".data := by rfl

example : clean "../a/..".data = "..".data := by rfl

/-! ### Filesystem model

A filesystem state is a rooted tree: regular files carry byte content,
directories carry an association list of named children.  Real
directories have unique child names; the operations below are written
with first-match lookup and keep that invariant. -/

/-- A filesystem node: a regular file with its byte content, or a
directory with its named children. -/
inductive Node where
  | file (content : Str)
  | dir (children : List (Str × Node))

/-- First child with the given name. -/
def findChild : List (Str × Node) → Str → Option Node
  | [], _ => none
  | (k', n) :: t, k => if k' = k then some n else findChild t k

/-- Replace the first child with the given name (no-op if absent). -/
def replaceChild : List (Str × Node) → Str → Node → List (Str × Node)
  | [], _, _ => []
  | (k', n) :: t, k, x => if k' = k then (k', x) :: t else (k', n) :: replaceChild t k x

/-- Apply a function to the first child with the given name. -/
def mapChild : List (Str × Node) → Str → (Node → Node) → List (Str × Node)
  | [], _, _ => []
  | (k', n) :: t, k, f => if k' = k then (k', f n) :: t else (k', n) :: mapChild t k f

/-- Remove every child with the given name. -/
def eraseChild : List (Str × Node) → Str → List (Str × Node)
  | [], _ => []
  | (k', n) :: t, k => if k' = k then eraseChild t k else (k', n) :: eraseChild t k

/-- Set (or add) the child with the given name. -/
def setChild : List (Str × Node) → Str → Node → List (Str × Node)
  | [], k, x => [(k, x)]
  | (k', n) :: t, k, x => if k' = k then (k', x) :: t else (k', n) :: setChild t k x

/-- What `stat` observes while walking a component path: the node found,
`notExist` (ENOENT: a component is missing), or `otherErr` (ENOTDIR: a
regular file sits in the middle of the path). -/
inductive StatR where
  | found (n : Node)
  | notExist
  | otherErr

/-- Walk a component path down the tree. -/
def walk : List Str → Node → StatR
  | [], n => .found n
  | _ :: _, .file _ => .otherErr
  | k :: ks, .dir cs =>
    match findChild cs k with
    | none => .notExist
    | some c => walk ks c

/-- `os.Stat`: the empty path is ENOENT; otherwise walk the path's
components.  `os.IsNotExist` holds exactly for `notExist`. -/
def statR (fs : Node) (p : Str) : StatR :=
  if p = [] then .notExist else walk (pathComps p) fs

/-- Graft a node at a component path, creating (or overwriting)
intermediate entries as directories. -/
def setNode : List Str → Node → Node → Node
  | [], x, _ => x
  | k :: ks, x, g =>
    let cs := match g with | .dir cs => cs | .file _ => []
    .dir (setChild cs k (setNode ks x ((findChild cs k).getD (.dir []))))

/-- Remove the subtree at a component path (no-op where the path does
not lead through directories; removing the root is not modelled). -/
def removeNode : List Str → Node → Node
  | [], g => g
  | k :: ks, g =>
    match g with
    | .file c => .file c
    | .dir cs =>
      if ks = [] then .dir (eraseChild cs k)
      else .dir (mapChild cs k (removeNode ks))

/-- `os.RemoveAll`: remove the tree at the given path. -/
def removeAll (fs : Node) (p : Str) : Node :=
  removeNode (pathComps p) fs

/-- The recursion of `os.Mkdir`: all leading components must already
exist as directories, and the final component must be absent. -/
def mkdirAt : Node → List Str → Str → Option Node
  | .file _, _, _ => none
  | .dir cs, [], name =>
    match findChild cs name with
    | some _ => none
    | none => some (.dir (cs ++ [(name, .dir [])]))
  | .dir cs, k :: ks, name =>
    match findChild cs k with
    | none => none
    | some c =>
      match mkdirAt c ks name with
      | none => none
      | some c2 => some (.dir (replaceChild cs k c2))

/-- `os.Mkdir` (non-recursive): fails on the empty path, on the root,
on a missing or non-directory parent, and on an existing target. -/
def mkdir (fs : Node) (p : Str) : Option Node :=
  if p = [] then none
  else
    match (pathComps p).reverse with
    | [] => none
    | name :: revInit => mkdirAt fs revInit.reverse name

/-- The recursion of `os.Create`: leading components must be existing
directories; the target becomes an empty file (truncating an existing
file, failing on an existing directory). -/
def createFileAt : Node → List Str → Str → Option Node
  | .file _, _, _ => none
  | .dir cs, [], name =>
    match findChild cs name with
    | some (.dir _) => none
    | some (.file _) => some (.dir (replaceChild cs name (.file [])))
    | none => some (.dir (cs ++ [(name, .file [])]))
  | .dir cs, k :: ks, name =>
    match findChild cs k with
    | none => none
    | some c =>
      match createFileAt c ks name with
      | none => none
      | some c2 => some (.dir (replaceChild cs k c2))

/-- `os.Create` (as used here: make an empty file). -/
def osCreate (fs : Node) (p : Str) : Option Node :=
  if p = [] then none
  else
    match (pathComps p).reverse with
    | [] => none
    | name :: revInit => createFileAt fs revInit.reverse name

/-- `ioutil.WriteFile` at a path whose parent already exists (the only
way the module calls it: on a file it has just stat'ed). -/
def writeFile (fs : Node) (p : Str) (content : Str) : Node :=
  setNode (pathComps p) (.file content) fs

/-- Modelled from the spec: `Copy` (the RecursiveCopier, spec §4.5) is
called by `migrateOldConfig` but its definition is not under src/.  Per
the spec it copies a regular file's bytes, or recursively copies a
directory tree preserving relative structure, failing if the source
cannot be read; creating the destination is not further specified, so
it is modelled as grafting the source subtree at the destination path
(intermediate directories created as needed). -/
def copy (fs : Node) (src dst : Str) : Option Node :=
  match statR fs src with
  | .found n => some (setNode (pathComps dst) n fs)
  | _ => none

/-! ### The module's operations -/

/-- The shared body of `createXdgConfigDir` and `createWtfConfigDir`
(config_files.go lines 96-120): if `os.Stat` reports not-exist, try
`os.Mkdir`; a creation failure is reported and the process exits
(`.error ()`); any other stat outcome is a silent no-op. -/
def ensureDir (fs : Node) (p : Str) : Except Unit Node :=
  match statR fs p with
  | .notExist =>
    match mkdir fs p with
    | some fs2 => .ok fs2
    | none => .error ()
  | _ => .ok fs

/-- `createXdgConfigDir`: resolve `XdgConfigDir` discarding any
resolution error, then ensure the directory. -/
def createXdgConfigDir (env : UserEnv) (fs : Node) : Except Unit Node :=
  ensureDir fs (orEmpty (expandHomeDir env XdgConfigDir))

/-- `createWtfConfigDir`: resolve `WtfConfigDir` discarding any
resolution error, then ensure the directory. -/
def createWtfConfigDir (env : UserEnv) (fs : Node) : Except Unit Node :=
  ensureDir fs (orEmpty (WtfConfigDir env))

/-- `CreateFile`: resolve the config directory, form
`configDir + "/" + fileName` (`fmt.Sprintf`), and create the file if
`os.Stat` reports not-exist; returns the path, or the first error. -/
def CreateFile (env : UserEnv) (fs : Node) (fileName : Str) :
    Except CfgError (Node × Str) :=
  match WtfConfigDir env with
  | .error e => .error e
  | .ok configDir =>
    let filePath := configDir ++ '/' :: fileName
    match statR fs filePath with
    | .found _ => .ok (fs, filePath)
    | .notExist =>
      match osCreate fs filePath with
      | some fs2 => .ok (fs2, filePath)
      | none => .error .ioError
    | .otherErr => .error .ioError

/-- Modelled from the spec: the static default configuration blob
(`defaultConfigFile`), referenced by config_files.go but defined in
another file of the package; its exact bytes do not matter to any
claim, only that it is a fixed string. -/
def defaultConfigFile : Str := "wtf:\n  mods:\n".data

/-- The outcome of `createWtfConfigFile`: a new filesystem state, or a
Go `panic` carrying the value of the `err` variable at the panic site
(`none` embeds a nil error value). -/
inductive SeedOutcome where
  | ok (fs : Node)
  | panicked (payload : Option CfgError)

/-- `createWtfConfigFile` (config_files.go lines 124-138): ensure
`config.yml` exists, then if its size is zero write the default blob.
`writeOk` says whether `ioutil.WriteFile` succeeds; on write failure
the code runs `panic(err)` where `err` is the (necessarily nil) error
from `CreateFile`.  A directory at the path has nonzero
system-dependent `Size()`, so seeding is skipped; the remaining branch
(stat failing right after `CreateFile` succeeded, a nil `FileInfo`
dereference) cannot be reached. -/
def createWtfConfigFile (writeOk : Bool) (env : UserEnv) (fs : Node) :
    SeedOutcome :=
  match CreateFile env fs ("config.yml".data) with
  | .error e => .panicked (some e)
  | .ok (fs1, filePath) =>
    match statR fs1 filePath with
    | .found (.file content) =>
      if content.length = 0 then
        if writeOk then .ok (writeFile fs1 filePath defaultConfigFile)
        else .panicked none
      else .ok fs1
    | .found (.dir _) => .ok fs1
    | _ => .panicked none

/-- `migrateOldConfig` (config_files.go lines 214-241): resolve the
legacy and current directories discarding resolution errors; return
unchanged if the legacy directory's stat is not-exist, or if the
current directory's stat succeeds; otherwise copy (a failure panics,
`.error ()`), then remove the legacy tree if the destination now
stats successfully (a removal failure would only be printed). -/
def migrateOldConfig (env : UserEnv) (fs : Node) : Except Unit Node :=
  let srcDir := orEmpty (expandHomeDir env WtfConfigDirV1)
  let destDir := orEmpty (expandHomeDir env WtfConfigDirV2)
  match statR fs srcDir with
  | .notExist => .ok fs
  | _ =>
    match statR fs destDir with
    | .found _ => .ok fs
    | _ =>
      match copy fs srcDir destDir with
      | none => .error ()
      | some fs2 =>
        match statR fs2 destDir with
        | .found _ => .ok (removeAll fs2 srcDir)
        | _ => .ok fs2

/-! ### Lemmas: children association lists -/

theorem findChild_setChild_self (cs : List (Str × Node)) (k : Str) (x : Node) :
    findChild (setChild cs k x) k = some x := by
  induction cs with
  | nil => simp [setChild, findChild]
  | cons e t ih =>
    obtain ⟨k', n⟩ := e
    by_cases h : k' = k
    · simp [setChild, findChild, h]
    · simp [setChild, findChild, h, ih]

theorem findChild_setChild_ne (cs : List (Str × Node)) (k b : Str) (x : Node)
    (h : b ≠ k) : findChild (setChild cs k x) b = findChild cs b := by
  induction cs with
  | nil => simp [setChild, findChild, Ne.symm h]
  | cons e t ih =>
    obtain ⟨k', n⟩ := e
    by_cases hk : k' = k
    · rw [hk]
      simp [setChild, findChild, Ne.symm h]
    · simp [setChild, findChild, hk, ih]

theorem findChild_eraseChild_self (cs : List (Str × Node)) (k : Str) :
    findChild (eraseChild cs k) k = none := by
  induction cs with
  | nil => simp [eraseChild, findChild]
  | cons e t ih =>
    obtain ⟨k', n⟩ := e
    by_cases h : k' = k
    · simpa [eraseChild, h] using ih
    · simpa [eraseChild, findChild, h] using ih

theorem findChild_eraseChild_ne (cs : List (Str × Node)) (k b : Str) (h : b ≠ k) :
    findChild (eraseChild cs k) b = findChild cs b := by
  induction cs with
  | nil => simp [eraseChild, findChild]
  | cons e t ih =>
    obtain ⟨k', n⟩ := e
    by_cases hk : k' = k
    · rw [hk]
      simpa [eraseChild, findChild, Ne.symm h] using ih
    · simp [eraseChild, findChild, hk, ih]

theorem findChild_mapChild_self (cs : List (Str × Node)) (k : Str) (f : Node → Node) :
    findChild (mapChild cs k f) k = (findChild cs k).map f := by
  induction cs with
  | nil => simp [mapChild, findChild]
  | cons e t ih =>
    obtain ⟨k', n⟩ := e
    by_cases h : k' = k
    · simp [mapChild, findChild, h]
    · simp [mapChild, findChild, h, ih]

theorem findChild_mapChild_ne (cs : List (Str × Node)) (k b : Str) (f : Node → Node)
    (h : b ≠ k) : findChild (mapChild cs k f) b = findChild cs b := by
  induction cs with
  | nil => simp [mapChild, findChild]
  | cons e t ih =>
    obtain ⟨k', n⟩ := e
    by_cases hk : k' = k
    · rw [hk]
      simp [mapChild, findChild, Ne.symm h]
    · simp [mapChild, findChild, hk, ih]

theorem findChild_replaceChild_self (cs : List (Str × Node)) (k : Str) (x c : Node)
    (h : findChild cs k = some c) : findChild (replaceChild cs k x) k = some x := by
  induction cs with
  | nil => simp [findChild] at h
  | cons e t ih =>
    obtain ⟨k', n⟩ := e
    by_cases hk : k' = k
    · simp [replaceChild, findChild, hk]
    · simp only [findChild, if_neg hk] at h
      simp [replaceChild, findChild, hk, ih h]

theorem findChild_append_of_none (cs : List (Str × Node)) (k : Str) (x : Node)
    (h : findChild cs k = none) : findChild (cs ++ [(k, x)]) k = some x := by
  induction cs with
  | nil => simp [findChild]
  | cons e t ih =>
    obtain ⟨k', n⟩ := e
    by_cases hk : k' = k
    · simp [findChild, hk] at h
    · simp only [findChild, if_neg hk] at h
      simp [findChild, hk, ih h]

/-! ### Lemmas: walking, grafting and removal -/

theorem walk_append_of_found (S : List Str) (g n : Node) (h : walk S g = .found n)
    (q : List Str) : walk (S ++ q) g = walk q n := by
  induction S generalizing g with
  | nil =>
    simp only [walk, StatR.found.injEq] at h
    rw [List.nil_append, h]
  | cons k S' ih =>
    match g with
    | .file c => simp [walk] at h
    | .dir cs =>
      cases hfc : findChild cs k with
      | none => simp [walk, hfc] at h
      | some c =>
        simp only [walk, hfc] at h
        simpa [walk, hfc] using ih c h

theorem walk_setNode_append (D q : List Str) (x g : Node) :
    walk (D ++ q) (setNode D x g) = walk q x := by
  induction D generalizing g with
  | nil => simp [setNode]
  | cons k D' ih =>
    cases g <;> simp [setNode, walk, findChild_setChild_self, ih]

theorem walk_setNode_found (D : List Str) (x g : Node) :
    walk D (setNode D x g) = .found x := by
  have h := walk_setNode_append D [] x g
  simpa using h

theorem walk_setNode_preserve (P : List Str) (a b : Str) (s r : List Str)
    (y g x : Node) (hab : a ≠ b) (h : walk (P ++ b :: r) g = .found x) :
    walk (P ++ b :: r) (setNode (P ++ a :: s) y g) = .found x := by
  induction P generalizing g with
  | nil =>
    match g with
    | .file c => simp [walk] at h
    | .dir cs =>
      cases hfc : findChild cs b with
      | none => simp [walk, hfc] at h
      | some c =>
        simp only [List.nil_append, walk, hfc] at h
        simp [setNode, walk, findChild_setChild_ne _ _ _ _ (Ne.symm hab), hfc, h]
  | cons k P' ih =>
    match g with
    | .file c => simp [walk] at h
    | .dir cs =>
      cases hfc : findChild cs k with
      | none => simp [walk, hfc] at h
      | some c =>
        simp only [List.cons_append, walk, hfc] at h
        simp [setNode, walk, findChild_setChild_self, hfc, ih c h]

theorem walk_removeNode_other (P : List Str) (a b : Str) (s r : List Str)
    (g : Node) (hab : a ≠ b) :
    walk (P ++ b :: r) (removeNode (P ++ a :: s) g) = walk (P ++ b :: r) g := by
  induction P generalizing g with
  | nil =>
    match g with
    | .file c => simp [removeNode]
    | .dir cs =>
      cases s with
      | nil => simp [removeNode, walk, findChild_eraseChild_ne _ _ _ (Ne.symm hab)]
      | cons s0 s' => simp [removeNode, walk, findChild_mapChild_ne _ _ _ _ (Ne.symm hab)]
  | cons k P' ih =>
    match g with
    | .file c => simp [removeNode]
    | .dir cs =>
      have hne : P' ++ a :: s ≠ [] := by simp
      cases hfc : findChild cs k with
      | none => simp [removeNode, hne, walk, findChild_mapChild_self, hfc]
      | some c =>
        simp [removeNode, hne, walk, findChild_mapChild_self, hfc, ih c]

theorem walk_removeNode_self (K : List Str) (a : Str) (g x : Node)
    (h : walk (K ++ [a]) g = .found x) :
    walk (K ++ [a]) (removeNode (K ++ [a]) g) = .notExist := by
  induction K generalizing g with
  | nil =>
    match g with
    | .file c => simp [walk] at h
    | .dir cs =>
      cases hfc : findChild cs a with
      | none => simp [walk, hfc] at h
      | some c => simp [removeNode, walk, findChild_eraseChild_self]
  | cons k K' ih =>
    match g with
    | .file c => simp [walk] at h
    | .dir cs =>
      have hne : K' ++ [a] ≠ [] := by simp
      cases hfc : findChild cs k with
      | none => simp [walk, hfc] at h
      | some c =>
        simp only [List.cons_append, walk, hfc] at h
        simp [removeNode, hne, walk, findChild_mapChild_self, hfc, ih c h]

theorem mkdirAt_walk : ∀ (ks : List Str) (g : Node) (name : Str) (g2 : Node),
    mkdirAt g ks name = some g2 → walk (ks ++ [name]) g2 = .found (.dir []) := by
  intro ks
  induction ks with
  | nil =>
    intro g name g2 h
    match g with
    | .file c => simp [mkdirAt] at h
    | .dir cs =>
      cases hfc : findChild cs name with
      | some c => simp [mkdirAt, hfc] at h
      | none =>
        simp only [mkdirAt, hfc, Option.some.injEq] at h
        subst h
        simp [walk, findChild_append_of_none _ _ _ hfc]
  | cons k ks' ih =>
    intro g name g2 h
    match g with
    | .file c => simp [mkdirAt] at h
    | .dir cs =>
      cases hfc : findChild cs k with
      | none => simp [mkdirAt, hfc] at h
      | some c =>
        cases hmk : mkdirAt c ks' name with
        | none => simp [mkdirAt, hfc, hmk] at h
        | some c2 =>
          simp only [mkdirAt, hfc, hmk, Option.some.injEq] at h
          subst h
          simp [walk, findChild_replaceChild_self _ _ _ _ hfc, ih c name c2 hmk]

theorem mkdir_statR (fs : Node) (p : Str) (fs2 : Node) (h : mkdir fs p = some fs2) :
    statR fs2 p = .found (.dir []) := by
  by_cases hp : p = []
  · rw [mkdir, if_pos hp] at h
    simp at h
  · rw [mkdir, if_neg hp] at h
    cases hrev : (pathComps p).reverse with
    | nil => rw [hrev] at h; simp at h
    | cons name revInit =>
      rw [hrev] at h
      have hcomps : pathComps p = revInit.reverse ++ [name] := by
        have h2 := congrArg List.reverse hrev
        simpa using h2
      simp only [statR, if_neg hp, hcomps]
      exact mkdirAt_walk _ _ _ _ h

/-! ### Lemmas: path strings and cleaning -/

theorem splitSlash_ne_nil (s : Str) : splitSlash s ≠ [] := by
  cases s with
  | nil => simp [splitSlash]
  | cons c t =>
    by_cases hc : c = '/'
    · simp [splitSlash, hc]
    · simp only [splitSlash, if_neg hc]
      cases h : splitSlash t <;> simp

theorem splitSlash_append (a b : Str) :
    splitSlash (a ++ '/' :: b) = splitSlash a ++ splitSlash b := by
  induction a with
  | nil => simp [splitSlash]
  | cons c t ih =>
    by_cases hc : c = '/'
    · simp [splitSlash, hc, ih]
    · rw [List.cons_append]
      simp only [splitSlash, if_neg hc, ih]
      cases h : splitSlash t with
      | nil => exact absurd h (splitSlash_ne_nil t)
      | cons h0 r => simp

theorem mem_splitSlash (s : Str) : ∀ p ∈ splitSlash s, '/' ∉ p := by
  induction s with
  | nil =>
    intro p hp
    simp [splitSlash] at hp
    simp [hp]
  | cons c t ih =>
    intro p hp
    by_cases hc : c = '/'
    · simp only [splitSlash, if_pos hc] at hp
      rcases List.mem_cons.mp hp with h | h
      · simp [h]
      · exact ih p h
    · cases hsp : splitSlash t with
      | nil => exact absurd hsp (splitSlash_ne_nil t)
      | cons h0 r =>
        simp only [splitSlash, if_neg hc, hsp] at hp
        rcases List.mem_cons.mp hp with h | h
        · subst h
          intro hmem
          rcases List.mem_cons.mp hmem with h' | h'
          · exact hc h'.symm
          · exact ih h0 (by simp [hsp]) h'
        · exact ih p (by simp [hsp, h])

theorem splitSlash_no_slash (p : Str) (h : '/' ∉ p) : splitSlash p = [p] := by
  induction p with
  | nil => rfl
  | cons c t ih =>
    have hc : c ≠ '/' := by
      intro hc
      exact h (by simp [hc])
    have ht : '/' ∉ t := fun hm => h (List.mem_cons_of_mem _ hm)
    simp [splitSlash, hc, ih ht]

theorem splitSlash_intercalate (parts : List Str) (hne : parts ≠ [])
    (h : ∀ p ∈ parts, '/' ∉ p) :
    splitSlash (intercalateSlash parts) = parts := by
  induction parts with
  | nil => exact absurd rfl hne
  | cons p ps ih =>
    cases ps with
    | nil => exact splitSlash_no_slash p (h p (by simp))
    | cons q r =>
      rw [intercalateSlash, splitSlash_append,
        splitSlash_no_slash p (h p (by simp)),
        ih (by simp) (fun x hx => h x (by simp [hx]))]
      simp

theorem cleanPartsAcc_append (rt : Bool) (xs ys acc : List Str) :
    cleanPartsAcc rt acc (xs ++ ys) =
      cleanPartsAcc rt (cleanPartsAcc rt acc xs) ys := by
  induction xs generalizing acc with
  | nil => rfl
  | cons c rest ih =>
    rw [List.cons_append]
    by_cases h1 : c = [] ∨ c = ['.']
    · simp only [cleanPartsAcc, if_pos h1]
      exact ih acc
    · by_cases h2 : c = ['.', '.']
      · simp only [cleanPartsAcc, if_neg h1, if_pos h2]
        cases acc with
        | nil => exact ih _
        | cons top accRest =>
          by_cases h3 : top = ['.', '.']
          · simp only [if_pos h3]
            exact ih _
          · simp only [if_neg h3]
            exact ih _
      · simp only [cleanPartsAcc, if_neg h1, if_neg h2]
        exact ih _

theorem mem_cleanPartsAcc (rt : Bool) :
    ∀ (xs acc : List Str),
      (∀ a ∈ acc, a ≠ [] ∧ a ≠ ['.'] ∧ '/' ∉ a) →
      (∀ x ∈ xs, '/' ∉ x) →
      ∀ y ∈ cleanPartsAcc rt acc xs, y ≠ [] ∧ y ≠ ['.'] ∧ '/' ∉ y := by
  intro xs
  induction xs with
  | nil =>
    intro acc hacc _ y hy
    exact hacc y hy
  | cons c rest ih =>
    intro acc hacc hxs y hy
    have hrest : ∀ x ∈ rest, '/' ∉ x := fun x hx => hxs x (by simp [hx])
    have hcslash : '/' ∉ c := hxs c (by simp)
    by_cases h1 : c = [] ∨ c = ['.']
    · simp only [cleanPartsAcc, if_pos h1] at hy
      exact ih acc hacc hrest y hy
    · by_cases h2 : c = ['.', '.']
      · subst h2
        cases acc with
        | nil =>
          simp only [cleanPartsAcc, if_neg h1, if_pos rfl] at hy
          refine ih _ ?_ hrest y hy
          intro a ha
          cases rt with
          | true => simp at ha
          | false =>
            simp at ha
            subst ha
            exact ⟨by decide, by decide, by decide⟩
        | cons top accRest =>
          by_cases h3 : top = ['.', '.']
          · simp only [cleanPartsAcc, if_neg h1, if_pos rfl, if_pos h3] at hy
            refine ih _ ?_ hrest y hy
            intro a ha
            rcases List.mem_cons.mp ha with h | h
            · subst h
              exact ⟨by decide, by decide, by decide⟩
            · exact hacc a h
          · simp only [cleanPartsAcc, if_neg h1, if_pos rfl, if_neg h3] at hy
            exact ih _ (fun a ha => hacc a (by simp [ha])) hrest y hy
      · simp only [cleanPartsAcc, if_neg h1, if_neg h2] at hy
        refine ih _ ?_ hrest y hy
        intro a ha
        rcases List.mem_cons.mp ha with h | h
        · subst h
          push_neg at h1
          exact ⟨h1.1, h1.2, hcslash⟩
        · exact hacc a h

theorem mem_stackFold (rt : Bool) (s : Str) :
    ∀ y ∈ stackFold rt (splitSlash s), y ≠ [] ∧ y ≠ ['.'] ∧ '/' ∉ y := by
  intro y hy
  rw [stackFold, List.mem_reverse] at hy
  exact mem_cleanPartsAcc rt (splitSlash s) [] (by simp) (mem_splitSlash s) y hy

theorem intercalateSlash_ne_nil (p0 : Str) (ps : List Str) (hp0 : p0 ≠ []) :
    intercalateSlash (p0 :: ps) ≠ [] := by
  cases ps with
  | nil => simpa [intercalateSlash] using hp0
  | cons q r => simp [intercalateSlash]

theorem clean_ne_nil (s : Str) : clean s ≠ [] := by
  rw [clean]
  by_cases hs : s = []
  · simp [hs]
  · rw [if_neg hs]
    cases hr : isRooted s with
    | true => simp
    | false =>
      by_cases hb : intercalateSlash (stackFold false (splitSlash s)) = []
      · simp [hb]
      · simp [hb]

theorem pathComps_slash (x : Str) : pathComps ('/' :: x) = pathComps x := by
  rw [pathComps, pathComps]
  have h : splitSlash ('/' :: x) = [] :: splitSlash x := by simp [splitSlash]
  rw [h, List.filter_cons]
  simp

theorem pathComps_parts (parts : List Str)
    (hmem : ∀ y ∈ parts, y ≠ [] ∧ y ≠ ['.'] ∧ '/' ∉ y) :
    pathComps (intercalateSlash parts) = parts := by
  by_cases hp : parts = []
  · subst hp
    decide
  · rw [pathComps, splitSlash_intercalate parts hp (fun p hp' => (hmem p hp').2.2)]
    apply List.filter_eq_self.mpr
    intro a ha
    simpa using ⟨(hmem a ha).1, (hmem a ha).2.1⟩

theorem pathComps_clean (s : Str) (hs : s ≠ []) :
    pathComps (clean s) = stackFold (isRooted s) (splitSlash s) := by
  have hmem := mem_stackFold (isRooted s) s
  rw [clean, if_neg hs]
  cases hr : isRooted s with
  | true =>
    rw [hr] at hmem
    rw [if_pos rfl, pathComps_slash]
    exact pathComps_parts _ hmem
  | false =>
    rw [hr] at hmem
    rw [if_neg (by decide)]
    by_cases hb : intercalateSlash (stackFold false (splitSlash s)) = []
    · rw [if_pos hb]
      have hparts : stackFold false (splitSlash s) = [] := by
        cases hp : stackFold false (splitSlash s) with
        | nil => rfl
        | cons p0 ps =>
          exfalso
          have hp0 : p0 ≠ [] := (hmem p0 (by simp [hp])).1
          rw [hp] at hb
          exact intercalateSlash_ne_nil p0 ps hp0 hb
      rw [hparts]
      decide
    · rw [if_neg hb]
      exact pathComps_parts _ hmem

/-! ### Lemmas: joining and resolving the fixed locations -/

theorem isRooted_append (a b : Str) (ha : a ≠ []) : isRooted (a ++ b) = isRooted a := by
  cases a with
  | nil => exact absurd rfl ha
  | cons c t => rfl

theorem filepathJoin_eq (a b : Str) (ha : a ≠ []) (hb : b ≠ []) :
    filepathJoin a b = clean (a ++ '/' :: b) := by
  rw [filepathJoin]
  have hf : [a, b].filter (fun e => decide (e ≠ [])) = [a, b] := by
    simp [List.filter, ha, hb]
  rw [hf]
  simp [intercalateSlash]

theorem filepathJoin_nil_right (a : Str) (ha : a ≠ []) : filepathJoin a [] = clean a := by
  rw [filepathJoin]
  have hf : [a, ([] : Str)].filter (fun e => decide (e ≠ [])) = [a] := by
    simp [List.filter, ha]
  rw [hf]
  simp [intercalateSlash]

theorem resolved_ne_nil (dir tail : Str) (hdir : dir ≠ []) (htail : tail ≠ []) :
    filepathJoin dir tail ≠ [] := by
  rw [filepathJoin_eq _ _ hdir htail]
  exact clean_ne_nil _

theorem home_cases (env : UserEnv) :
    home env = .error .homeDirUnavailable ∨ ∃ dir, dir ≠ [] ∧ home env = .ok dir := by
  unfold home
  cases env.current with
  | none => exact Or.inl rfl
  | some hd =>
    by_cases hhd : hd = []
    · exact Or.inl (by simp [hhd])
    · exact Or.inr ⟨hd, hhd, by simp [hhd]⟩

theorem home_ok_ne_nil (env : UserEnv) (dir : Str) (h : home env = .ok dir) :
    dir ≠ [] := by
  rcases home_cases env with hcase | ⟨d, hd, hcase⟩
  · rw [hcase] at h
    exact absurd h (by simp)
  · rw [hcase] at h
    obtain rfl : d = dir := by simpa using h
    exact hd

theorem home_error (env : UserEnv) (e : CfgError) (h : home env = .error e) :
    e = .homeDirUnavailable := by
  rcases home_cases env with hcase | ⟨d, hd, hcase⟩
  · rw [hcase] at h
    injection h with h2
    exact h2.symm
  · rw [hcase] at h
    exact absurd h (by simp)

theorem expandHomeDir_sep_ok (env : UserEnv) (dir : Str) (c : Char) (rest : Str)
    (h : home env = .ok dir) (hc : c = '/' ∨ c = '\\') :
    expandHomeDir env ('~' :: c :: rest) = .ok (filepathJoin dir (c :: rest)) := by
  have hguard : ¬(c ≠ '/' ∧ c ≠ '\\') := by
    rcases hc with rfl | rfl
    · simp
    · simp
  simp [expandHomeDir, hguard, h]

theorem expandHomeDir_sep_err (env : UserEnv) (e : CfgError) (c : Char) (rest : Str)
    (h : home env = .error e) (hc : c = '/' ∨ c = '\\') :
    expandHomeDir env ('~' :: c :: rest) = .error e := by
  have hguard : ¬(c ≠ '/' ∧ c ≠ '\\') := by
    rcases hc with rfl | rfl
    · simp
    · simp
  simp [expandHomeDir, hguard, h]

theorem expandHomeDir_tilde_ok (env : UserEnv) (dir : Str) (h : home env = .ok dir) :
    expandHomeDir env ['~'] = .ok (filepathJoin dir []) := by
  simp [expandHomeDir, h]

theorem expandHomeDir_tilde_err (env : UserEnv) (e : CfgError) (h : home env = .error e) :
    expandHomeDir env ['~'] = .error e := by
  simp [expandHomeDir, h]

theorem cleanPartsAcc_cons_skip (rt : Bool) (acc rest : List Str) :
    cleanPartsAcc rt acc ([] :: rest) = cleanPartsAcc rt acc rest := by
  simp [cleanPartsAcc]

theorem cleanPartsAcc_cons_push (rt : Bool) (acc rest : List Str) (c : Str)
    (h1 : c ≠ []) (h2 : c ≠ ['.']) (h3 : c ≠ ['.', '.']) :
    cleanPartsAcc rt acc (c :: rest) = cleanPartsAcc rt (c :: acc) rest := by
  simp only [cleanPartsAcc]
  rw [if_neg (by simp [h1, h2]), if_neg h3]

theorem comps_resolved_V1 (dir : Str) (hdir : dir ≠ []) :
    pathComps (filepathJoin dir ('/' :: ['.', 'w', 't', 'f', '/'])) =
      stackFold (isRooted dir) (splitSlash dir) ++ [['.', 'w', 't', 'f']] := by
  rw [filepathJoin_eq dir _ hdir (by decide)]
  have hX : dir ++ '/' :: ('/' :: ['.', 'w', 't', 'f', '/']) ≠ [] := by
    cases dir with
    | nil => exact absurd rfl hdir
    | cons c t => simp
  rw [pathComps_clean _ hX, isRooted_append _ _ hdir, splitSlash_append]
  have hsp : splitSlash ('/' :: ['.', 'w', 't', 'f', '/']) =
      [[], ['.', 'w', 't', 'f'], []] := by decide
  rw [hsp, stackFold, stackFold, cleanPartsAcc_append]
  rw [cleanPartsAcc_cons_skip,
    cleanPartsAcc_cons_push _ _ _ _ (by decide) (by decide) (by decide),
    cleanPartsAcc_cons_skip]
  simp [cleanPartsAcc]

theorem comps_resolved_V2 (dir : Str) (hdir : dir ≠ []) :
    pathComps (filepathJoin dir
        ('/' :: ['.', 'c', 'o', 'n', 'f', 'i', 'g', '/', 'w', 't', 'f', '/'])) =
      stackFold (isRooted dir) (splitSlash dir) ++
        [['.', 'c', 'o', 'n', 'f', 'i', 'g'], ['w', 't', 'f']] := by
  rw [filepathJoin_eq dir _ hdir (by decide)]
  have hX : dir ++ '/' :: ('/' :: ['.', 'c', 'o', 'n', 'f', 'i', 'g', '/', 'w', 't', 'f', '/']) ≠ [] := by
    cases dir with
    | nil => exact absurd rfl hdir
    | cons c t => simp
  rw [pathComps_clean _ hX, isRooted_append _ _ hdir, splitSlash_append]
  have hsp : splitSlash ('/' :: ['.', 'c', 'o', 'n', 'f', 'i', 'g', '/', 'w', 't', 'f', '/']) =
      [[], ['.', 'c', 'o', 'n', 'f', 'i', 'g'], ['w', 't', 'f'], []] := by decide
  rw [hsp, stackFold, stackFold, cleanPartsAcc_append]
  rw [cleanPartsAcc_cons_skip,
    cleanPartsAcc_cons_push _ _ _ _ (by decide) (by decide) (by decide),
    cleanPartsAcc_cons_push _ _ _ _ (by decide) (by decide) (by decide),
    cleanPartsAcc_cons_skip]
  simp [cleanPartsAcc]

theorem WtfConfigDirV1_chars :
    WtfConfigDirV1 = '~' :: '/' :: ['.', 'w', 't', 'f', '/'] := rfl

theorem WtfConfigDirV2_chars :
    WtfConfigDirV2 = '~' :: '/' :: ['.', 'c', 'o', 'n', 'f', 'i', 'g', '/', 'w', 't', 'f', '/'] := rfl

theorem XdgConfigDir_chars :
    XdgConfigDir = '~' :: '/' :: ['.', 'c', 'o', 'n', 'f', 'i', 'g', '/'] := rfl

/-! ### Claim theorems -/

/-- C3: for every input string that is empty or does not begin with the
home marker `'~'`, `expandHomeDir` succeeds and returns the input
unchanged. -/
theorem expandHomeDir_id_of_no_marker (env : UserEnv) (p : Str)
    (h : p.head? ≠ some '~') : expandHomeDir env p = .ok p := by
  cases p with
  | nil => rfl
  | cons c rest =>
    have hc : c ≠ '~' := by simpa using h
    simp [expandHomeDir, hc]

/-- Witness for C3 at a concrete input. -/
theorem expandHomeDir_id_of_no_marker_witness :
    expandHomeDir ⟨some "/h".data⟩ "abc".data = .ok "abc".data :=
  expandHomeDir_id_of_no_marker ⟨some "/h".data⟩ "abc".data (by decide)

/-- C4: for every input beginning with the home marker whose next
character is neither `'/'` nor `'\\'`, `expandHomeDir` fails with the
malformed-path error and returns no resolved path. -/
theorem expandHomeDir_malformed (env : UserEnv) (c : Char) (rest : Str)
    (h1 : c ≠ '/') (h2 : c ≠ '\\') :
    expandHomeDir env ('~' :: c :: rest) = .error .malformedPath := by
  simp [expandHomeDir, h1, h2]

/-- Witness for C4 at a concrete input. -/
theorem expandHomeDir_malformed_witness :
    expandHomeDir ⟨some "/h".data⟩ ('~' :: 'x' :: []) = .error .malformedPath :=
  expandHomeDir_malformed ⟨some "/h".data⟩ 'x' [] (by decide) (by decide)

/-- C5 counterexample: resolution does not return the plain
concatenation `home + remainder`; `filepath.Join` cleans the result
(here, the trailing separator of `"~/.config/"` is dropped). -/
theorem expandHomeDir_not_plain_concat :
    expandHomeDir ⟨some "/home/u".data⟩ "~/.config/".data =
      .ok "/home/u/.config".data ∧
    "/home/u/.config".data ≠ "/home/u".data ++ "/.config/".data :=
  ⟨by rfl, by decide⟩

/-- C5 (amended): for every path beginning with the marker followed by a
separator (`'/'` or `'\\'`) and any determinable non-empty home
directory, resolution returns `filepath.Join(home, remainder)` — the
concatenation of home and remainder normalized by Go path cleaning —
rather than the plain concatenation; for the marker alone it returns
`Clean(home)` (the home directory itself whenever that string is
already clean); and it fails with `homeDirUnavailable` whenever the
home directory cannot be determined or is empty. -/
theorem expandHomeDir_marker_resolution (env : UserEnv) :
    (∀ dir, home env = .ok dir →
      (∀ c rest, c = '/' ∨ c = '\\' →
        expandHomeDir env ('~' :: c :: rest) = .ok (filepathJoin dir (c :: rest))) ∧
      expandHomeDir env ['~'] = .ok (clean dir)) ∧
    (∀ e, home env = .error e →
      e = .homeDirUnavailable ∧
      (∀ c rest, c = '/' ∨ c = '\\' →
        expandHomeDir env ('~' :: c :: rest) = .error .homeDirUnavailable) ∧
      expandHomeDir env ['~'] = .error .homeDirUnavailable) := by
  constructor
  · intro dir h
    refine ⟨fun c rest hc => expandHomeDir_sep_ok env dir c rest h hc, ?_⟩
    rw [expandHomeDir_tilde_ok env dir h,
      filepathJoin_nil_right dir (home_ok_ne_nil env dir h)]
  · intro e h
    have he := home_error env e h
    subst he
    exact ⟨rfl, fun c rest hc => expandHomeDir_sep_err env _ c rest h hc,
      expandHomeDir_tilde_err env _ h⟩

/-- Witness for C5 at a concrete input. -/
theorem expandHomeDir_marker_resolution_witness :
    expandHomeDir ⟨some "/h".data⟩ ('~' :: '/' :: "a".data) =
      .ok (filepathJoin "/h".data ('/' :: "a".data)) :=
  ((expandHomeDir_marker_resolution ⟨some "/h".data⟩).1 "/h".data (by rfl)).1
    '/' "a".data (Or.inl rfl)

/-- C9: a path beginning with the marker followed by a backslash is not
rejected as malformed: the backslash is accepted as a separator and the
result is the home directory joined with the remainder, provided the
home directory is determinable. -/
theorem expandHomeDir_backslash (env : UserEnv) (dir rest : Str)
    (h : home env = .ok dir) :
    expandHomeDir env ('~' :: '\\' :: rest) ≠ .error .malformedPath ∧
    expandHomeDir env ('~' :: '\\' :: rest) = .ok (filepathJoin dir ('\\' :: rest)) := by
  have heq := expandHomeDir_sep_ok env dir '\\' rest h (Or.inr rfl)
  refine ⟨?_, heq⟩
  rw [heq]
  simp

/-- Witness for C9 at a concrete input. -/
theorem expandHomeDir_backslash_witness :
    expandHomeDir ⟨some "/h".data⟩ ('~' :: '\\' :: "a".data) ≠ .error .malformedPath ∧
    expandHomeDir ⟨some "/h".data⟩ ('~' :: '\\' :: "a".data) =
      .ok (filepathJoin "/h".data ('\\' :: "a".data)) :=
  expandHomeDir_backslash ⟨some "/h".data⟩ "/h".data "a".data (by rfl)

/-- C1: whenever the current configuration directory exists (its stat
succeeds), the migrator returns the filesystem completely unchanged —
legacy and current trees included — even if the legacy directory also
exists. -/
theorem migrateOldConfig_skip (env : UserEnv) (fs n : Node)
    (h : statR fs (orEmpty (expandHomeDir env WtfConfigDirV2)) = .found n) :
    migrateOldConfig env fs = .ok fs := by
  simp only [migrateOldConfig]
  cases h1 : statR fs (orEmpty (expandHomeDir env WtfConfigDirV1)) with
  | notExist => rfl
  | found n2 => simp only [h]
  | otherErr => simp only [h]

/-- Witness for C1 at a concrete input (legacy and current both exist). -/
theorem migrateOldConfig_skip_witness :
    migrateOldConfig ⟨some "/h".data⟩
      (.dir [("h".data, .dir [(".wtf".data, .dir []),
        (".config".data, .dir [("wtf".data, .dir [])])])]) =
    .ok (.dir [("h".data, .dir [(".wtf".data, .dir []),
      (".config".data, .dir [("wtf".data, .dir [])])])]) :=
  migrateOldConfig_skip ⟨some "/h".data⟩ _ (.dir []) (by rfl)

/-- C6 counterexample: with an undeterminable home directory the
resolution of `XdgConfigDir` fails, and directory provisioning does not
proceed with the input path `"~/.config/"`: it proceeds with the empty
string (the resolver's zero value) and terminates fatally. -/
theorem createXdgConfigDir_counterexample :
    createXdgConfigDir ⟨none⟩ (.dir []) = .error () ∧
    orEmpty (expandHomeDir ⟨none⟩ XdgConfigDir) = [] ∧
    XdgConfigDir ≠ [] :=
  ⟨rfl, rfl, by decide⟩

/-- C6 (amended): a path-resolution failure inside directory
provisioning is tolerated silently (the error value is discarded), but
the operation then proceeds with the empty string — the resolver's
zero-value first return — not with the path as given; with the empty
path, `os.Stat` reports not-exist and `os.Mkdir` fails, so both
`createXdgConfigDir` and `createWtfConfigDir` terminate the process. -/
theorem provision_empty_on_resolution_error (env : UserEnv) (fs : Node) (e : CfgError)
    (h : expandHomeDir env XdgConfigDir = .error e) :
    orEmpty (expandHomeDir env XdgConfigDir) = [] ∧
    createXdgConfigDir env fs = .error () ∧
    createWtfConfigDir env fs = .error () := by
  have hhome : home env = .error .homeDirUnavailable ∧ e = .homeDirUnavailable := by
    rcases home_cases env with hcase | ⟨d, hd, hcase⟩
    · rw [XdgConfigDir_chars] at h
      rw [expandHomeDir_sep_err env _ '/' _ hcase (Or.inl rfl)] at h
      injection h with h2
      exact ⟨hcase, h2.symm⟩
    · exfalso
      rw [XdgConfigDir_chars] at h
      rw [expandHomeDir_sep_ok env d '/' _ hcase (Or.inl rfl)] at h
      exact absurd h (by simp)
  obtain ⟨hh, he⟩ := hhome
  have hx : expandHomeDir env XdgConfigDir = .error .homeDirUnavailable := by
    rw [he] at h
    exact h
  have hv2 : expandHomeDir env WtfConfigDirV2 = .error .homeDirUnavailable := by
    rw [WtfConfigDirV2_chars]
    exact expandHomeDir_sep_err env _ '/' _ hh (Or.inl rfl)
  refine ⟨by rw [hx]; rfl, ?_, ?_⟩
  · unfold createXdgConfigDir
    rw [hx]
    rfl
  · unfold createWtfConfigDir WtfConfigDir
    rw [hv2]
    rfl

/-- Witness for the amended C6 at a concrete input. -/
theorem provision_empty_on_resolution_error_witness :
    orEmpty (expandHomeDir ⟨none⟩ XdgConfigDir) = [] ∧
    createXdgConfigDir ⟨none⟩ (.dir []) = .error () ∧
    createWtfConfigDir ⟨none⟩ (.dir []) = .error () :=
  provision_empty_on_resolution_error ⟨none⟩ (.dir []) .homeDirUnavailable (by rfl)

/-- C7: once the configuration file holds non-zero content, seeding is
a no-op: the whole filesystem state — in particular the file's byte
content — is unchanged, whether or not a write could succeed. -/
theorem createWtfConfigFile_noop (w : Bool) (env : UserEnv) (fs : Node)
    (cd content : Str)
    (hcd : WtfConfigDir env = .ok cd)
    (hstat : statR fs (cd ++ '/' :: "config.yml".data) = .found (.file content))
    (hne : content ≠ []) :
    createWtfConfigFile w env fs = .ok fs := by
  unfold createWtfConfigFile CreateFile
  rw [hcd]
  simp only [hstat]
  simp [List.length_eq_zero, hne]

/-- Witness for C7 at a concrete input (content `"foo: bar"`). -/
theorem createWtfConfigFile_noop_witness :
    createWtfConfigFile true ⟨some "/h".data⟩
      (.dir [("h".data, .dir [(".config".data, .dir [("wtf".data,
        .dir [("config.yml".data, .file "foo: bar".data)])])])]) =
    .ok (.dir [("h".data, .dir [(".config".data, .dir [("wtf".data,
      .dir [("config.yml".data, .file "foo: bar".data)])])])]) :=
  createWtfConfigFile_noop true ⟨some "/h".data⟩ _ "/h/.config/wtf".data
    "foo: bar".data (by rfl) (by rfl) (by decide)

/-- C8: directory-ensure is idempotent — a successful call followed by a
second call on the same path leaves the state unchanged and raises no
error — and an already-existing entry of any type is a silent no-op. -/
theorem ensureDir_idempotent :
    (∀ (fs : Node) (p : Str) (fs2 : Node),
      ensureDir fs p = .ok fs2 → ensureDir fs2 p = .ok fs2) ∧
    (∀ (fs : Node) (p : Str) (n : Node),
      statR fs p = .found n → ensureDir fs p = .ok fs) := by
  constructor
  · intro fs p fs2 h
    unfold ensureDir at h ⊢
    cases h1 : statR fs p with
    | notExist =>
      simp only [h1] at h
      cases h2 : mkdir fs p with
      | none =>
        simp only [h2] at h
        simp at h
      | some fs3 =>
        simp only [h2] at h
        obtain rfl : fs3 = fs2 := by simpa using h
        rw [mkdir_statR fs p fs3 h2]
    | found n =>
      simp only [h1] at h
      obtain rfl : fs = fs2 := by simpa using h
      rw [h1]
    | otherErr =>
      simp only [h1] at h
      obtain rfl : fs = fs2 := by simpa using h
      rw [h1]
  · intro fs p n h
    unfold ensureDir
    rw [h]

/-- Witness for C8 at a concrete input. -/
theorem ensureDir_idempotent_witness :
    ensureDir (.dir [("a".data, .dir [])]) "/a".data =
      .ok (.dir [("a".data, .dir [])]) :=
  ensureDir_idempotent.1 (.dir []) "/a".data (.dir [("a".data, .dir [])]) (by rfl)

/-- C10: when the seeding write fails on an empty config file, the
process panics carrying the earlier `err` variable — necessarily the
nil error, since a non-nil `CreateFile` error would already have
panicked — and the actual write error is discarded. -/
theorem createWtfConfigFile_nil_panic (env : UserEnv) (fs fs1 : Node) (p : Str)
    (hcf : CreateFile env fs ("config.yml".data) = .ok (fs1, p))
    (hstat : statR fs1 p = .found (.file [])) :
    createWtfConfigFile false env fs = .panicked none := by
  unfold createWtfConfigFile
  rw [hcf]
  simp [hstat]

/-- Witness for C10 at a concrete input (empty config file present). -/
theorem createWtfConfigFile_nil_panic_witness :
    createWtfConfigFile false ⟨some "/h".data⟩
      (.dir [("h".data, .dir [(".config".data, .dir [("wtf".data,
        .dir [("config.yml".data, .file [])])])])]) = .panicked none :=
  createWtfConfigFile_nil_panic ⟨some "/h".data⟩
    (.dir [("h".data, .dir [(".config".data, .dir [("wtf".data,
      .dir [("config.yml".data, .file [])])])])])
    (.dir [("h".data, .dir [(".config".data, .dir [("wtf".data,
      .dir [("config.yml".data, .file [])])])])])
    "/h/.config/wtf/config.yml".data (by rfl) (by rfl)

/-- C2: if the legacy directory exists and the current one does not,
the migrator succeeds and, in the resulting state, every file that was
under the legacy directory (identified by its relative component path
and byte content) is present under the current directory, and the
legacy directory no longer exists.  (The modelled cleanup cannot fail;
the non-fatal cleanup-failure escape hatch is therefore not exercised.) -/
theorem migrateOldConfig_migrates (env : UserEnv) (dir : Str) (fs nsrc : Node)
    (hhome : home env = .ok dir)
    (hsrc : statR fs (orEmpty (expandHomeDir env WtfConfigDirV1)) = .found nsrc)
    (hdst : statR fs (orEmpty (expandHomeDir env WtfConfigDirV2)) = .notExist) :
    ∃ fs2, migrateOldConfig env fs = .ok fs2 ∧
      (∀ q c, walk (pathComps (orEmpty (expandHomeDir env WtfConfigDirV1)) ++ q) fs =
          .found (.file c) →
        walk (pathComps (orEmpty (expandHomeDir env WtfConfigDirV2)) ++ q) fs2 =
          .found (.file c)) ∧
      statR fs2 (orEmpty (expandHomeDir env WtfConfigDirV1)) = .notExist := by
  have hdirne := home_ok_ne_nil env dir hhome
  have hv1 : expandHomeDir env WtfConfigDirV1 =
      .ok (filepathJoin dir ('/' :: ['.', 'w', 't', 'f', '/'])) := by
    rw [WtfConfigDirV1_chars]
    exact expandHomeDir_sep_ok env dir '/' _ hhome (Or.inl rfl)
  have hv2 : expandHomeDir env WtfConfigDirV2 =
      .ok (filepathJoin dir
        ('/' :: ['.', 'c', 'o', 'n', 'f', 'i', 'g', '/', 'w', 't', 'f', '/'])) := by
    rw [WtfConfigDirV2_chars]
    exact expandHomeDir_sep_ok env dir '/' _ hhome (Or.inl rfl)
  have hsrcStr : orEmpty (expandHomeDir env WtfConfigDirV1) =
      filepathJoin dir ('/' :: ['.', 'w', 't', 'f', '/']) := by
    rw [hv1]
    rfl
  have hdstStr : orEmpty (expandHomeDir env WtfConfigDirV2) =
      filepathJoin dir
        ('/' :: ['.', 'c', 'o', 'n', 'f', 'i', 'g', '/', 'w', 't', 'f', '/']) := by
    rw [hv2]
    rfl
  have hS : pathComps (orEmpty (expandHomeDir env WtfConfigDirV1)) =
      stackFold (isRooted dir) (splitSlash dir) ++ [['.', 'w', 't', 'f']] := by
    rw [hsrcStr]
    exact comps_resolved_V1 dir hdirne
  have hD : pathComps (orEmpty (expandHomeDir env WtfConfigDirV2)) =
      stackFold (isRooted dir) (splitSlash dir) ++
        [['.', 'c', 'o', 'n', 'f', 'i', 'g'], ['w', 't', 'f']] := by
    rw [hdstStr]
    exact comps_resolved_V2 dir hdirne
  have hsrcne : orEmpty (expandHomeDir env WtfConfigDirV1) ≠ [] := by
    rw [hsrcStr]
    exact resolved_ne_nil _ _ hdirne (by decide)
  have hdstne : orEmpty (expandHomeDir env WtfConfigDirV2) ≠ [] := by
    rw [hdstStr]
    exact resolved_ne_nil _ _ hdirne (by decide)
  have hwalkS : walk (stackFold (isRooted dir) (splitSlash dir) ++
      [['.', 'w', 't', 'f']]) fs = .found nsrc := by
    have h := hsrc
    unfold statR at h
    rw [if_neg hsrcne, hS] at h
    exact h
  have hstat2 : statR (setNode (pathComps (orEmpty (expandHomeDir env WtfConfigDirV2)))
      nsrc fs) (orEmpty (expandHomeDir env WtfConfigDirV2)) = .found nsrc := by
    unfold statR
    rw [if_neg hdstne]
    exact walk_setNode_found _ _ _
  have hcopy : copy fs (orEmpty (expandHomeDir env WtfConfigDirV1))
      (orEmpty (expandHomeDir env WtfConfigDirV2)) =
      some (setNode (pathComps (orEmpty (expandHomeDir env WtfConfigDirV2))) nsrc fs) := by
    unfold copy
    rw [hsrc]
  have hrun : migrateOldConfig env fs =
      .ok (removeNode (pathComps (orEmpty (expandHomeDir env WtfConfigDirV1)))
        (setNode (pathComps (orEmpty (expandHomeDir env WtfConfigDirV2))) nsrc fs)) := by
    simp only [migrateOldConfig, removeAll]
    rw [hsrc, hdst]
    simp only [hcopy, hstat2]
  refine ⟨_, hrun, ?_, ?_⟩
  · intro q c hq
    rw [hS] at hq
    rw [hS, hD]
    have hq' : walk q nsrc = .found (.file c) := by
      rw [walk_append_of_found _ _ _ hwalkS q] at hq
      exact hq
    have hassoc : (stackFold (isRooted dir) (splitSlash dir) ++
        [['.', 'c', 'o', 'n', 'f', 'i', 'g'], ['w', 't', 'f']]) ++ q =
        stackFold (isRooted dir) (splitSlash dir) ++
          (['.', 'c', 'o', 'n', 'f', 'i', 'g'] :: (['w', 't', 'f'] :: q)) := by
      simp
    rw [hassoc]
    rw [walk_removeNode_other (stackFold (isRooted dir) (splitSlash dir))
      ['.', 'w', 't', 'f'] ['.', 'c', 'o', 'n', 'f', 'i', 'g'] []
      (['w', 't', 'f'] :: q) _ (by decide)]
    rw [← hassoc, walk_setNode_append]
    exact hq'
  · unfold statR
    rw [if_neg hsrcne, hS, hD]
    have hpres : walk (stackFold (isRooted dir) (splitSlash dir) ++
        [['.', 'w', 't', 'f']])
        (setNode (stackFold (isRooted dir) (splitSlash dir) ++
          [['.', 'c', 'o', 'n', 'f', 'i', 'g'], ['w', 't', 'f']]) nsrc fs) =
        .found nsrc :=
      walk_setNode_preserve (stackFold (isRooted dir) (splitSlash dir))
        ['.', 'c', 'o', 'n', 'f', 'i', 'g'] ['.', 'w', 't', 'f']
        [['w', 't', 'f']] [] nsrc fs nsrc (by decide) hwalkS
    exact walk_removeNode_self _ _ _ nsrc hpres

/-- Witness for C2 at a concrete input (legacy holds `settings.txt`
with content `"abc"`; current absent). -/
theorem migrateOldConfig_migrates_witness :
    ∃ fs2, migrateOldConfig ⟨some "/h".data⟩
        (.dir [("h".data, .dir [(".wtf".data,
          .dir [("settings.txt".data, .file "abc".data)])])]) = .ok fs2 ∧
      (∀ q c, walk (pathComps (orEmpty (expandHomeDir ⟨some "/h".data⟩ WtfConfigDirV1)) ++ q)
          (.dir [("h".data, .dir [(".wtf".data,
            .dir [("settings.txt".data, .file "abc".data)])])]) = .found (.file c) →
        walk (pathComps (orEmpty (expandHomeDir ⟨some "/h".data⟩ WtfConfigDirV2)) ++ q) fs2 =
          .found (.file c)) ∧
      statR fs2 (orEmpty (expandHomeDir ⟨some "/h".data⟩ WtfConfigDirV1)) = .notExist :=
  migrateOldConfig_migrates ⟨some "/h".data⟩ "/h".data
    (.dir [("h".data, .dir [(".wtf".data,
      .dir [("settings.txt".data, .file "abc".data)])])])
    (.dir [("settings.txt".data, .file "abc".data)])
    (by rfl) (by rfl) (by rfl)

/-! ### Concrete evaluations of the model -/

example : migrateOldConfig ⟨some "/h".data⟩
    (.dir [("h".data, .dir [(".wtf".data, .dir [("settings.txt".data, .file "abc".data)])])]) =
    .ok (.dir [("h".data, .dir [(".config".data, .dir [("wtf".data,
      .dir [("settings.txt".data, .file "abc".data)])])])]) := by rfl

example : migrateOldConfig ⟨some "/h".data⟩
    (.dir [("h".data, .dir [(".wtf".data, .dir []), (".config".data, .dir [("wtf".data, .dir [])])])]) =
    .ok (.dir [("h".data, .dir [(".wtf".data, .dir []), (".config".data, .dir [("wtf".data, .dir [])])])]) := by rfl

example : ensureDir (.dir []) "/a".data = .ok (.dir [("a".data, .dir [])]) := by rfl

example : ensureDir (.dir [("a".data, .dir [])]) "/a".data = .ok (.dir [("a".data, .dir [])]) := by rfl

example : createWtfConfigFile true ⟨some "/h".data⟩
    (.dir [("h".data, .dir [(".config".data, .dir [("wtf".data,
      .dir [("config.yml".data, .file "foo: bar".data)])])])]) =
    .ok (.dir [("h".data, .dir [(".config".data, .dir [("wtf".data,
      .dir [("config.yml".data, .file "foo: bar".data)])])])]) := by rfl

example : createWtfConfigFile false ⟨some "/h".data⟩
    (.dir [("h".data, .dir [(".config".data, .dir [("wtf".data,
      .dir [("config.yml".data, .file [])])])])]) = .panicked none := by rfl

example : createXdgConfigDir ⟨none⟩ (.dir []) = .error () := by rfl

end Wtf
